import Mathlib

/-!
A shallow embedding of the `foxi` meadow-equation prover
(`src/foxi/ast.py`, `src/foxi/parser.py`, `src/foxi/__main__.py`).

The symbolic polynomial layer (sympy) is an external collaborator of the
repository; it is abstracted as a `Substrate` structure providing exactly
the operations `ast.py` uses (arithmetic, `factor`/`as_terms` factor
sequences, zero-substitution, free symbols, zero/number predicates,
`sympify`).  The expression model, the arithmetic dispatch with its
constant-folding shortcuts, the normalizing constructor `SMFN.make`, the
context-sensitive evaluator, the equation prover loop, and the
shunting-yard parser are translated from the source.  A concrete
executable substrate (canonical multivariate polynomials with rational
coefficients) instantiates the model for concrete runs.

Modelling notes:
- Python's mutable factor cache on `Polynomial` (`_factorized`,
  `terms = terms.factor()`) is dropped: the substrate's terms are taken
  to be canonical, so the cache is observably transparent, as spec §3
  states.  `Polynomial.factors` becomes the pure `Substrate.factorList`.
- Python sets (`set(self.factors)`, hypothesis sets, free-variable sets)
  become lists; `set(...)` with `.pop()` becomes `List.dedup` with the
  head element popped, a deterministic refinement of the unspecified
  iteration order (spec §9 notes the order is unspecified).
- Exceptions become an error type: `AlgebraError`, `ParseError`,
  `ParenError` from the source, plus Python's `AttributeError`,
  `TypeError` (attribute/operator lookup failures on `Equation`
  operands) and `AssertionError` (the final `assert` in `parse`).
- The mutually recursive arithmetic methods are compiled to structural
  recursion over a fuel argument initialised with `sz a + sz b`; every
  recursive call in the source strictly decreases that sum (the
  `other + self` swap cases are inlined, marked below), so the zero-fuel
  branch is unreachable.  Fuel-irrelevance above the bound is proved in
  `Alg.addF_smf0` for the one composition a theorem needs.
- Python's character classes (`isspace`, `isalpha`, `isdigit`,
  `isalnum`) are modelled by `Char.isWhitespace`/`isAlpha`/`isDigit`/
  `isAlphanum`, which agree on ASCII; non-ASCII input classifies
  differently but consistently reaches a `ParseError`-family outcome in
  both.
-/

namespace Foxi

/-- Error conditions observable at the boundary of the core: the two
exception classes the repository defines (`AlgebraError`, `ParseError`
with its `ParenError` subclass) and the Python-level failures reachable
from the source (`AttributeError`, `TypeError`, `AssertionError`). -/
inductive PyErr where
  | algebraError
  | parseError
  | parenError
  | attributeError
  | typeError
  | assertionError
deriving DecidableEq, Repr

instance {ε α : Type} [DecidableEq ε] [DecidableEq α] : DecidableEq (Except ε α) :=
  fun a b =>
    match a, b with
    | .error e, .error f => decidable_of_iff (e = f) (by simp)
    | .ok x, .ok y => decidable_of_iff (x = y) (by simp)
    | .error _, .ok _ => isFalse (by simp)
    | .ok _, .error _ => isFalse (by simp)

/-- The interface `ast.py` requires from the symbolic substrate (sympy),
per spec §6: arithmetic on canonical terms, the factor sequence
(`terms.factor()` followed by `as_terms()[1]`, or `[terms]` for a
non-product), substitution of terms by 0, free symbols, the `is_zero`
and `is_number` predicates, `sympify`, and the constants 0 and 1. -/
class Substrate (σ : Type) where
  deq : DecidableEq σ
  sneg : σ → σ
  sadd : σ → σ → σ
  smul : σ → σ → σ
  sdiv : σ → σ → σ
  factorList : σ → List σ
  subsZeros : σ → List σ → σ
  freeSymbols : σ → List σ
  isZero : σ → Bool
  isNumber : σ → Bool
  sympify : String → σ
  zeroT : σ
  oneT : σ

attribute [instance] Substrate.deq

variable {σ : Type} [S : Substrate σ]

/-- The closed algebraic variant family of `ast.py`: `Polynomial`
(wrapping a substrate term), `SMF0` (a stored ratio of two
`Polynomial`s), and `SMFN` (a conditional branch with a `Polynomial`
condition).  `Equation` is not `Algebraic` and is modelled separately. -/
inductive Alg (σ : Type) where
  | poly (terms : σ)
  | smf0 (lhs rhs : σ)
  | smfn (cond : σ) (P Q : Alg σ)
deriving DecidableEq

/-- Structural size, used as the fuel bound for the arithmetic methods. -/
def Alg.sz : Alg σ → Nat
  | .poly _ => 1
  | .smf0 _ _ => 1
  | .smfn _ P Q => 1 + P.sz + Q.sz

/-- Source `Algebraic.is_zero`: only `Polynomial` overrides the `False` default. -/
def Alg.isZero : Alg σ → Bool
  | .poly t => S.isZero t
  | _ => false

/-- Source `Algebraic.is_one`: `Polynomial.is_one` tests `terms == Number(1)`. -/
def Alg.isOne : Alg σ → Bool
  | .poly t => t = S.oneT
  | _ => false

/-- Source `Algebraic.is_constant`: `Polynomial.is_constant` is `terms.is_number`. -/
def Alg.isConstant : Alg σ → Bool
  | .poly t => S.isNumber t
  | _ => false

/-- Source `Polynomial + Polynomial` through `Algebraic.__add__`: the zero
shortcuts, then `Polynomial.add`, which stays a `Polynomial`. -/
def addP (t u : σ) : σ :=
  if S.isZero t then u
  else if S.isZero u then t
  else S.sadd t u

/-- Source `Polynomial * Polynomial` through `Algebraic.__mul__`. -/
def mulP (t u : σ) : σ :=
  if S.isZero t || S.isZero u then S.zeroT
  else if t = S.oneT then u
  else if u = S.oneT then t
  else S.smul t u

/-- Source `Polynomial / Polynomial` through `Algebraic.__truediv__` and
`Polynomial.div`: a constant denominator collapses to a `Polynomial`,
otherwise a raw `SMF0` is built. -/
def divP (t u : σ) : Alg σ :=
  if S.isZero t || S.isZero u then .poly S.zeroT
  else if u = S.oneT then .poly t
  else if S.isNumber u then .poly (S.sdiv t u)
  else .smf0 t u

/-- The condition normalisation at the top of `SMFN.make`: replace
`cond` by the product of its factor sequence (`factors[0]` alone for a
monomial, the `c *= f` loop otherwise).  The source indexes `factors[0]`
unconditionally, so the empty case is unreachable; it returns `cond`. -/
def normCond (cond : σ) : σ :=
  match S.factorList cond with
  | [] => cond
  | f :: fs => fs.foldl S.smul f

/-- Source `SMFN.make`'s rewrite of `P`: a conditional branch with the same
(normalised) condition is replaced by its true branch. -/
def rewriteP (c : σ) (P : Alg σ) : Alg σ :=
  match P with
  | .smfn c' p _ => if c' = c then p else P
  | _ => P

/-- Source `SMFN.make`'s rewrite of `Q`: a branch with the same condition is
replaced by its false branch; a `Q` equal to the condition, or a ratio
with the condition as numerator or denominator, vanishes to 0. -/
def rewriteQ (c : σ) (Q : Alg σ) : Alg σ :=
  match Q with
  | .smfn c' _ q => if c' = c then q else Q
  | .smf0 l r => if c = l ∨ c = r then .poly S.zeroT else Q
  | .poly t => if t = c then .poly S.zeroT else Q

/-- Source `SMFN.make`: normalise the condition, rewrite the branches, then
collapse to `P` when `P == Q`, to `Q` on a zero condition, to `P` on a
constant condition, and otherwise build the branch node. -/
def mkSMFN (cond : σ) (P Q : Alg σ) : Alg σ :=
  let c := normCond cond
  let P := rewriteP c P
  let Q := rewriteQ c Q
  if P = Q then P
  else if S.isZero c then Q
  else if S.isNumber c then P
  else .smfn c P Q

/-- Source `Polynomial.__add__` with an arbitrary `Algebraic` right operand:
the zero shortcuts of `Algebraic.__add__` followed by `Polynomial.add`'s
dispatch.  The `other.is_zero` shortcut is written per case; it is
identically false on `SMF0`/`SMFN` operands and is dropped there. -/
def addPA (t : σ) : Alg σ → Alg σ
  | .poly u =>
    if S.isZero t then .poly u
    else if S.isZero u then .poly t
    else .poly (S.sadd t u)
  | .smf0 l r =>
    if S.isZero t then .smf0 l r
    else mkSMFN r (divP (addP (mulP t r) l) r) (.poly t)
  | .smfn c P Q =>
    if S.isZero t then .smfn c P Q
    else mkSMFN c (addPA t P) (addPA t Q)

/-- Source `Polynomial.__mul__` with an arbitrary `Algebraic` right operand;
shortcuts inlined per case as in `addPA`. -/
def mulPA (t : σ) : Alg σ → Alg σ
  | .poly u =>
    if S.isZero t || S.isZero u then .poly S.zeroT
    else if t = S.oneT then .poly u
    else if u = S.oneT then .poly t
    else .poly (S.smul t u)
  | .smf0 l r =>
    if S.isZero t then .poly S.zeroT
    else if t = S.oneT then .smf0 l r
    else .smf0 (S.smul t l) r
  | .smfn c P Q =>
    if S.isZero t then .poly S.zeroT
    else if t = S.oneT then .smfn c P Q
    else mkSMFN c (mulPA t P) (mulPA t Q)

/-- Source `Polynomial.__truediv__` with an arbitrary `Algebraic` right
operand (`Polynomial.div`'s dispatch after the shortcuts), shortcuts
inlined per case as in `addPA`. -/
def divPA (t : σ) : Alg σ → Alg σ
  | .poly u =>
    if S.isZero t || S.isZero u then .poly S.zeroT
    else if u = S.oneT then .poly t
    else if S.isNumber u then .poly (S.sdiv t u)
    else .smf0 t u
  | .smf0 l r =>
    if S.isZero t then .poly S.zeroT
    else .smf0 (S.smul t r) l
  | .smfn c P Q =>
    if S.isZero t then .poly S.zeroT
    else mkSMFN c (divPA t P) (divPA t Q)

/-- Source `Algebraic.__neg__`: `Polynomial.neg` negates the term, `SMF0.neg`
is `-lhs / rhs`, `SMFN.neg` negates both branches through `make`. -/
def Alg.neg : Alg σ → Alg σ
  | .poly t => .poly (S.sneg t)
  | .smf0 l r => divP (S.sneg l) r
  | .smfn c P Q => mkSMFN c P.neg Q.neg

/-- Source `Algebraic.__add__` compiled to fuel-indexed structural recursion.
The `other + self` swaps in `SMF0.add` and `SMFN.add` are inlined: a
`Polynomial` right operand goes through `addPA`, and the
`SMFN + SMF0` case repeats `SMF0.add`'s `SMFN` branch with the operands
named accordingly.  Every recursive call strictly decreases
`sz a + sz b`, so fuel `sz a + sz b` (see `Alg.add`) never runs out. -/
def Alg.addF : Nat → Alg σ → Alg σ → Alg σ
  | 0, a, _ => a
  | _ + 1, .poly t, b => addPA t b
  | f + 1, a, b =>
    if b.isZero then a
    else
      match a, b with
      | .poly t, b => addPA t b
      | .smf0 l r, .poly t => addPA t (.smf0 l r)
      | .smf0 l r, .smf0 l2 r2 =>
        if r = r2 then divP (addP l l2) r
        else
          mkSMFN r
            (mkSMFN r2 (divP (addP (mulP l r2) (mulP r l2)) (mulP r r2)) (.smf0 l r))
            (.smf0 l2 r2)
      | .smf0 l r, .smfn c P Q =>
        if r = c then mkSMFN r (Alg.addF f (.smf0 l r) P) Q
        else
          mkSMFN c
            (mkSMFN r (Alg.addF f (.smf0 l r) P) P)
            (mkSMFN r (Alg.addF f (.smf0 l r) Q) Q)
      | .smfn c P Q, .poly t => addPA t (.smfn c P Q)
      | .smfn c P Q, .smf0 l r =>
        if r = c then mkSMFN r (Alg.addF f (.smf0 l r) P) Q
        else
          mkSMFN c
            (mkSMFN r (Alg.addF f (.smf0 l r) P) P)
            (mkSMFN r (Alg.addF f (.smf0 l r) Q) Q)
      | .smfn c P Q, .smfn c2 P2 Q2 =>
        if c = c2 then mkSMFN c (Alg.addF f P P2) (Alg.addF f Q Q2)
        else mkSMFN c (Alg.addF f P (.smfn c2 P2 Q2)) (Alg.addF f Q (.smfn c2 P2 Q2))

/-- Source `Algebraic.__add__`. -/
def Alg.add (a b : Alg σ) : Alg σ := Alg.addF (a.sz + b.sz) a b

/-- Source `Algebraic.__mul__` compiled like `Alg.addF`; the matching-condition
`SMF0 * SMFN` case returns `make(cond, other.P, Polynomial(0))` as in
the source. -/
def Alg.mulF : Nat → Alg σ → Alg σ → Alg σ
  | 0, a, _ => a
  | _ + 1, .poly t, b => mulPA t b
  | f + 1, a, b =>
    if b.isZero then .poly S.zeroT
    else if b.isOne then a
    else
      match a, b with
      | .poly t, b => mulPA t b
      | .smf0 l r, .poly t => mulPA t (.smf0 l r)
      | .smf0 l r, .smf0 l2 r2 => divP (mulP l l2) (mulP r r2)
      | .smf0 l r, .smfn c P Q =>
        if r = c then mkSMFN c P (.poly S.zeroT)
        else mkSMFN c (Alg.mulF f (.smf0 l r) P) (Alg.mulF f (.smf0 l r) Q)
      | .smfn c P Q, .poly t => mulPA t (.smfn c P Q)
      | .smfn c P Q, .smf0 l r =>
        if r = c then mkSMFN c P (.poly S.zeroT)
        else mkSMFN c (Alg.mulF f (.smf0 l r) P) (Alg.mulF f (.smf0 l r) Q)
      | .smfn c P Q, .smfn c2 P2 Q2 =>
        if c = c2 then mkSMFN c (Alg.mulF f P P2) (Alg.mulF f Q Q2)
        else mkSMFN c (Alg.mulF f P (.smfn c2 P2 Q2)) (Alg.mulF f Q (.smfn c2 P2 Q2))

/-- Source `Algebraic.__mul__`. -/
def Alg.mul (a b : Alg σ) : Alg σ := Alg.mulF (a.sz + b.sz) a b

/-- Source `Algebraic.__truediv__` compiled like `Alg.addF`.  `SMFN.div` does
not swap operands, so only the `SMF0 / SMFN` matching case composes
already-defined calls (`Polynomial(1) / (self.rhs * other.P)`). -/
def Alg.divF : Nat → Alg σ → Alg σ → Alg σ
  | 0, a, _ => a
  | _ + 1, .poly t, b => divPA t b
  | f + 1, a, b =>
    if b.isZero then .poly S.zeroT
    else if b.isOne then a
    else
      match a, b with
      | .poly t, b => divPA t b
      | .smf0 l r, .poly t => divP l (mulP r t)
      | .smf0 l r, .smf0 l2 r2 => divP (mulP l r2) (mulP r l2)
      | .smf0 l r, .smfn c P Q =>
        if r = c then mkSMFN c (divPA S.oneT (mulPA r P)) (.poly S.zeroT)
        else mkSMFN c (Alg.divF f (.smf0 l r) P) (Alg.divF f (.smf0 l r) Q)
      | .smfn c P Q, .poly t =>
        mkSMFN c (Alg.divF f P (.poly t)) (Alg.divF f Q (.poly t))
      | .smfn c P Q, .smf0 l r =>
        mkSMFN c (Alg.divF f P (.smf0 l r)) (Alg.divF f Q (.smf0 l r))
      | .smfn c P Q, .smfn c2 P2 Q2 =>
        if c = c2 then mkSMFN c (Alg.divF f P P2) (Alg.divF f Q Q2)
        else mkSMFN c (Alg.divF f P (.smfn c2 P2 Q2)) (Alg.divF f Q (.smfn c2 P2 Q2))

/-- Source `Algebraic.__truediv__`. -/
def Alg.div (a b : Alg σ) : Alg σ := Alg.divF (a.sz + b.sz) a b

/-- Source `Algebraic.__sub__`: the zero shortcuts, then `self + -other`. -/
def Alg.sub (a b : Alg σ) : Alg σ :=
  if a.isZero then b.neg
  else if b.isZero then a
  else a.add b.neg

/-- Source `Polynomial._eval`: a constant is returned as-is; otherwise
`set(self.factors)` is popped once unconditionally (the head of the
deduplicated factor list here), the remaining distinct factors are
multiplied in unless already known nonzero, and the zero-set terms are
substituted by 0.  Returns the resulting term. -/
def evalPolyT (t : σ) (zeros nonzeros : List σ) : σ :=
  if S.isNumber t then t
  else
    match (S.factorList t).dedup with
    | [] => t
    | f :: fs =>
      S.subsZeros
        (fs.foldl (fun acc g => if g ∈ nonzeros then acc else S.smul acc g) f)
        zeros

/-- The `for root in roots: ... else: ret = Polynomial(0)` loop at the
end of `SMFN._eval`: roots already known nonzero are skipped; the first
root whose `Q`-evaluation (with the root added to the zero-set) is
nonzero wins; if every considered evaluation is zero, the result is the
zero polynomial.  The evaluation of `Q` is passed in as a function of
the extended zero-set. -/
def evalRootsAux (evalQ : List σ → Alg σ) (zeros nonzeros : List σ) :
    List σ → Alg σ
  | [] => .poly S.zeroT
  | r :: rs =>
    if r ∈ nonzeros then evalRootsAux evalQ zeros nonzeros rs
    else
      let ret := evalQ (zeros ++ [r])
      if ret.isZero then evalRootsAux evalQ zeros nonzeros rs else ret

/-- Source `Expression._eval` restricted to the algebraic variants, with fuel
(the fuel decreases once per nesting level of `SMFN`, so `sz` suffices;
see `Alg.eval`).  `SMF0._eval` multiplies the two reduced forms;
`SMFN._eval` follows the source's case analysis on the evaluated
condition and its factor list (`roots`). -/
def evalF : Nat → Alg σ → List σ → List σ → Alg σ
  | 0, a, _, _ => a
  | f + 1, a, zeros, nonzeros =>
    match a with
    | .poly t => .poly (evalPolyT t zeros nonzeros)
    | .smf0 l r =>
      Alg.mul (.poly (evalPolyT l zeros nonzeros)) (.poly (evalPolyT r zeros nonzeros))
    | .smfn c P Q =>
      let cond := evalPolyT c zeros nonzeros
      let roots := S.factorList cond
      if S.isZero cond || roots.any (· ∈ zeros) then evalF f Q zeros nonzeros
      else
        let P' := evalF f P zeros (nonzeros ++ roots)
        if S.isNumber cond || roots.all (· ∈ nonzeros) then P'
        else if !P'.isZero then mkSMFN cond P' (evalF f Q zeros nonzeros)
        else evalRootsAux (fun zs => evalF f Q zs nonzeros) zeros nonzeros roots

/-- Source `Expression.eval` / `_eval` on the algebraic variants. -/
def Alg.eval (a : Alg σ) (zeros nonzeros : List σ) : Alg σ :=
  evalF a.sz a zeros nonzeros

/-- Union of free-variable lists with set semantics (first list's order
kept, later duplicates dropped). -/
def listUnion (xs ys : List σ) : List σ := xs ++ ys.filter (· ∉ xs)

/-- Source `free_variables` of the algebraic variants: the substrate's free
symbols of each wrapped term, united. -/
def freeVarsAlg : Alg σ → List σ
  | .poly t => S.freeSymbols t
  | .smf0 l r => listUnion (S.freeSymbols l) (S.freeSymbols r)
  | .smfn c P Q =>
    listUnion (S.freeSymbols c) (listUnion (freeVarsAlg P) (freeVarsAlg Q))

/-- The hypothesis the prover builds for bit pattern `i`: variable `v`
at index `j` is assumed zero when bit `j` of `i` is 0 (`not i & k` with
`k = 1 << j`). -/
def hypZeros (vars : List σ) (i : Nat) : List σ :=
  (vars.enum.filter (fun p => !i.testBit p.1)).map Prod.snd

/-- The nonzero half of the prover's hypothesis for bit pattern `i`. -/
def hypNonzeros (vars : List σ) (i : Nat) : List σ :=
  (vars.enum.filter (fun p => i.testBit p.1)).map Prod.snd

/-- One iteration body of `Equation._eval`'s loop: evaluate `diff`
under the hypothesis of bit pattern `i` (united with the sets passed
into `Equation._eval`). -/
def evalAtHyp (diff : Alg σ) (vars zeros nonzeros : List σ) (i : Nat) : Alg σ :=
  diff.eval (zeros ++ hypZeros vars i) (nonzeros ++ hypNonzeros vars i)

/-- Whether an evaluation result is a zero `Polynomial`
(`isinstance(eval, Polynomial) and eval.is_zero`); its negation is the
loop's break condition.  This coincides with `Alg.isZero`. -/
def isZeroPoly (a : Alg σ) : Bool := a.isZero

/-- Source `Equation._eval`'s loop from iteration `i` with `rest` further
iterations to go: compute the evaluation, stop on the first one that is
not a zero polynomial, and otherwise return the last evaluation. -/
def proveGo (diff : Alg σ) (vars zeros nonzeros : List σ) (i : Nat) : Nat → Alg σ
  | 0 => evalAtHyp diff vars zeros nonzeros i
  | rest + 1 =>
    let e := evalAtHyp diff vars zeros nonzeros i
    if isZeroPoly e then proveGo diff vars zeros nonzeros (i + 1) rest else e

/-- Source `Equation._eval` for algebraic `lhs`/`rhs`: form `diff = lhs - rhs`,
take its free variables, and run the loop over all `2^|V|` bit
patterns, from `i = 0` upward. -/
def equationEval (lhs rhs : Alg σ) (zeros nonzeros : List σ) : Alg σ :=
  let diff := lhs.sub rhs
  let vars := freeVarsAlg diff
  proveGo diff vars zeros nonzeros 0 (2 ^ vars.length - 1)

/-- The parser's expression type: an algebraic value or an `Equation`
node (whose operands may themselves be equations, as `"a = b = c"`
parses). -/
inductive Expr (σ : Type) where
  | alg (a : Alg σ)
  | equation (lhs rhs : Expr σ)
deriving DecidableEq

/-- Negation at the expression level: `Equation` defines no `__neg__`,
so negating one raises `TypeError`. -/
def exprNeg : Expr σ → Except PyErr (Expr σ)
  | .alg a => .ok (.alg a.neg)
  | .equation _ _ => .error .typeError

/-- Source `x + y` at the expression level.  `Algebraic.__add__` with an
`Equation` right operand returns it when the left side is zero
(`if self.is_zero: return other`) and otherwise fails with
`AttributeError` on `other.is_zero`; an `Equation` left operand has no
`__add__`, so Python raises `TypeError`. -/
def exprAdd : Expr σ → Expr σ → Except PyErr (Expr σ)
  | .alg a, .alg b => .ok (.alg (a.add b))
  | .alg a, .equation l r =>
    if a.isZero then .ok (.equation l r) else .error .attributeError
  | .equation _ _, _ => .error .typeError

/-- Source `x * y` at the expression level: `self.is_zero or other.is_zero`
short-circuits to `Polynomial(0)` for a zero left operand before
`other.is_zero` can raise `AttributeError`. -/
def exprMul : Expr σ → Expr σ → Except PyErr (Expr σ)
  | .alg a, .alg b => .ok (.alg (a.mul b))
  | .alg a, .equation _ _ =>
    if a.isZero then .ok (.alg (.poly S.zeroT)) else .error .attributeError
  | .equation _ _, _ => .error .typeError

/-- Source `x / y` at the expression level, like `exprMul`. -/
def exprDiv : Expr σ → Expr σ → Except PyErr (Expr σ)
  | .alg a, .alg b => .ok (.alg (a.div b))
  | .alg a, .equation _ _ =>
    if a.isZero then .ok (.alg (.poly S.zeroT)) else .error .attributeError
  | .equation _ _, _ => .error .typeError

/-- Source `Equation._eval` at the expression level: `self.lhs - self.rhs`
fails on nested equations (`TypeError` from a missing `__sub__` or
`__neg__`, `AttributeError` from `other.is_zero` when the left side is
a nonzero algebraic value); otherwise the prover loop runs. -/
def equationEvalE (lhs rhs : Expr σ) (zeros nonzeros : List σ) :
    Except PyErr (Alg σ) :=
  match lhs, rhs with
  | .alg a, .alg b => .ok (equationEval a b zeros nonzeros)
  | .alg a, .equation _ _ =>
    if a.isZero then .error .typeError else .error .attributeError
  | .equation _ _, _ => .error .typeError

/-- The five binary operators of `parser._OPERATORS`. -/
inductive Op where
  | opEq
  | opAdd
  | opSub
  | opMul
  | opDiv
deriving DecidableEq

/-- Operator precedence (`=` lowest; `+`/`-`; then `*`/`/`). -/
def Op.prec : Op → Nat
  | .opEq => 0
  | .opAdd => 1
  | .opSub => 1
  | .opMul => 2
  | .opDiv => 2

/-- Source `_Operator.__lt__` with the stack top as `self` and the incoming
operator as `other`: pop while the top has strictly higher precedence,
or equal precedence with left associativity (all five operators are
left-associative). -/
def Op.popsBefore (top new : Op) : Bool :=
  top.prec > new.prec || top.prec == new.prec

/-- A token of the tokenizer: a parenthesis, an operator, or a
`Polynomial` leaf built by `sympify`. -/
inductive Tok (σ : Type) where
  | lparen
  | rparen
  | op (o : Op)
  | leaf (t : σ)

/-- An operator-stack item: an operator or a left parenthesis
(`_Paren.LEFT`; right parentheses are never pushed). -/
inductive StackItem where
  | op (o : Op)
  | lparen
deriving DecidableEq

/-- Source `_read_symbol`: the maximal run of alphanumeric/underscore
characters, as a string together with the remaining input. -/
def readSymbol (cs : List Char) : String × List Char :=
  let p := cs.span (fun c => c.isAlphanum || c == '_')
  (String.mk p.1, p.2)

/-- Source `_read_number`: digits, optionally one decimal point, digits. -/
def readNumber (cs : List Char) : String × List Char :=
  let p := cs.span Char.isDigit
  match p.2 with
  | '.' :: rest =>
    let q := rest.span Char.isDigit
    (String.mk (p.1 ++ '.' :: q.1), q.2)
  | _ => (String.mk p.1, p.2)

/-- Source `_read_token`: parentheses and operators are single characters; a
letter starts a symbol, a digit starts a number; any other character
raises `ParenError` (the literal `raise ParenError()` closing
`_read_token`). -/
def readToken : List Char → Except PyErr (Tok σ × List Char)
  | [] => .error .parseError
  | c :: rest =>
    if c == '(' then .ok (.lparen, rest)
    else if c == ')' then .ok (.rparen, rest)
    else if c == '=' then .ok (.op .opEq, rest)
    else if c == '+' then .ok (.op .opAdd, rest)
    else if c == '-' then .ok (.op .opSub, rest)
    else if c == '*' then .ok (.op .opMul, rest)
    else if c == '/' then .ok (.op .opDiv, rest)
    else if c.isAlpha then
      let p := readSymbol (c :: rest)
      .ok (.leaf (S.sympify p.1), p.2)
    else if c.isDigit then
      let p := readNumber (c :: rest)
      .ok (.leaf (S.sympify p.1), p.2)
    else .error .parenError

/-- Source `_Operator.eval` for each operator: `=` builds an `Equation`; the
others invoke the expression-level arithmetic (`-` is
`lambda x, y: x + -y`). -/
def applyOp (o : Op) (x y : Expr σ) : Except PyErr (Expr σ) :=
  match o with
  | .opEq => .ok (.equation x y)
  | .opAdd => exprAdd x y
  | .opSub => do
    let ny ← exprNeg y
    exprAdd x ny
  | .opMul => exprMul x y
  | .opDiv => exprDiv x y

/-- Source `_pop_operator` given the item already popped off the operator
stack: a parenthesis raises `ParenError`; an operator pops its two
operands (fewer available raises `ParseError`, "Unexpected operator")
and pushes `operator.eval(x, y)` with `x` below `y`. -/
def popOperator (es : List (Expr σ)) : StackItem → Except PyErr (List (Expr σ))
  | .lparen => .error .parenError
  | .op o =>
    match es with
    | y :: x :: rest => do
      let e ← applyOp o x y
      .ok (e :: rest)
    | _ => .error .parseError

/-- Source `_pop_until_lower_precedence`: pop and apply stacked operators
while the top is an operator that pops before the incoming one. -/
def popUntilLower (newOp : Op) (es : List (Expr σ)) :
    List StackItem → Except PyErr (List (Expr σ) × List StackItem)
  | [] => .ok (es, [])
  | .lparen :: os => .ok (es, .lparen :: os)
  | .op o :: os =>
    if o.popsBefore newOp then do
      let es' ← popOperator es (.op o)
      popUntilLower newOp es' os
    else .ok (es, .op o :: os)

/-- Source `_pop_until_left_paren`: pop and apply operators until a left
parenthesis, which is discarded; an emptied stack raises `ParenError`. -/
def popUntilLParen (es : List (Expr σ)) :
    List StackItem → Except PyErr (List (Expr σ) × List StackItem)
  | [] => .error .parenError
  | .lparen :: os => .ok (es, os)
  | .op o :: os => do
    let es' ← popOperator es (.op o)
    popUntilLParen es' os

/-- The final `while op_stack: _pop_operator(...)` loop of `parse`. -/
def popAll (es : List (Expr σ)) :
    List StackItem → Except PyErr (List (Expr σ) × List StackItem)
  | [] => .ok (es, [])
  | o :: os => do
    let es' ← popOperator es o
    popAll es' os

/-- The token loop of `parse`, interleaving tokenization: skip spaces,
stop at end of input and drain the operator stack, and otherwise read
one token and dispatch on it.  Every iteration consumes at least one
character, so fuel `cs.length + 1` (see `parseStr`) never runs out. -/
def parseLoop : Nat → List Char → List (Expr σ) → List StackItem →
    Except PyErr (List (Expr σ) × List StackItem)
  | 0, _, es, os => popAll es os
  | fuel + 1, cs, es, os =>
    let cs := cs.dropWhile Char.isWhitespace
    match cs with
    | [] => popAll es os
    | c :: rest =>
      match readToken (σ := σ) (c :: rest) with
      | .error e => .error e
      | .ok (tok, rest') =>
        match tok with
        | .leaf t => parseLoop fuel rest' (.alg (.poly t) :: es) os
        | .op o =>
          match popUntilLower o es os with
          | .error e => .error e
          | .ok (es', os') => parseLoop fuel rest' es' (.op o :: os')
        | .lparen => parseLoop fuel rest' es (.lparen :: os)
        | .rparen =>
          match popUntilLParen es os with
          | .error e => .error e
          | .ok (es', os') => parseLoop fuel rest' es' os'

/-- Source `parse`: run the token loop from empty stacks, then
`assert len(expr_stack) == 1 and len(op_stack) == 0` (a failure is an
`AssertionError`), returning the single parsed expression. -/
def parseStr (s : String) : Except PyErr (Expr σ) :=
  match parseLoop (s.length + 1) s.data [] [] with
  | .error e => .error e
  | .ok (es, os) =>
    match es, os with
    | [e], [] => .ok e
    | _, _ => .error .assertionError

/-- The observable outcome of `__main__._prove` on one input line:
a caught and reported parse/algebra error, a bare expression (no proof
attempted), a proven-true verdict, a disproved verdict with the
residual, or an uncaught Python exception escaping `_prove`. -/
inductive ProveOutcome (σ : Type) where
  | caught (e : PyErr)
  | expression
  | provedTrue
  | provedFalse (residual : Alg σ)
  | uncaught (e : PyErr)
deriving DecidableEq

/-- Whether `except (foxi.AlgebraError, foxi.ParseError)` catches an
error: `ParenError` subclasses `ParseError`. -/
def PyErr.isCaught : PyErr → Bool
  | .algebraError => true
  | .parseError => true
  | .parenError => true
  | _ => false

/-- Source `__main__._prove`: parse; report caught errors; a bare `Algebraic`
result is only logged; otherwise evaluate the equation and report
`TRUE` exactly when the result `is_zero`, and `FALSE` with the residual
otherwise.  Exceptions other than `AlgebraError`/`ParseError` escape. -/
def prove (s : String) : ProveOutcome σ :=
  match parseStr (σ := σ) s with
  | .error e => if e.isCaught then .caught e else .uncaught e
  | .ok (.alg _) => .expression
  | .ok (.equation l r) =>
    match equationEvalE l r [] [] with
    | .error e => .uncaught e
    | .ok v => if v.isZero then .provedTrue else .provedFalse v

/-!
A concrete executable substrate: canonical multivariate polynomials
with rational coefficients, represented as ordered association lists
from monomials (ordered variable/exponent lists) to nonzero
coefficients.  Canonical form is maintained by building every result
through ordered insertion, so structural equality is canonical
equality.  Factoring extracts the common monomial content, which
matches sympy's `factor`/`as_terms` generator sequence on the terms the
concrete runs below exercise (a variable power contributes its base
symbol once; numeric coefficients contribute no generator). -/

/-- A monomial: variables with positive exponents, ordered by name. -/
abbrev Mono := List (String × Nat)

/-- A canonical polynomial: monomials with nonzero coefficients,
ordered by `cmpMono`.  Integer coefficients suffice for every concrete
run below; the substrate corners that would need rationals (decimal
literals, division by a non-unit constant) are not exercised. -/
abbrev CPoly := List (Mono × Int)

/-- Order on variable/exponent pairs: by name, then by exponent. -/
def cmpVE (a b : String × Nat) : Ordering :=
  match compare a.1 b.1 with
  | .eq => compare a.2 b.2
  | o => o

/-- Lexicographic order on monomials. -/
def cmpMono : Mono → Mono → Ordering
  | [], [] => .eq
  | [], _ :: _ => .lt
  | _ :: _, [] => .gt
  | a :: ms, b :: ns =>
    match cmpVE a b with
    | .eq => cmpMono ms ns
    | o => o

/-- Insert a variable power into an ordered monomial, merging
exponents. -/
def insertVE (x : String) (e : Nat) : Mono → Mono
  | [] => [(x, e)]
  | (y, f) :: ns =>
    match compare x y with
    | .lt => (x, e) :: (y, f) :: ns
    | .eq => (y, e + f) :: ns
    | .gt => (y, f) :: insertVE x e ns

/-- Multiply two monomials. -/
def monoMul (m n : Mono) : Mono := m.foldr (fun p acc => insertVE p.1 p.2 acc) n

/-- Insert a coefficient–monomial term into an ordered polynomial,
merging coefficients and dropping zeros. -/
def insertTerm (m : Mono) (c : Int) : CPoly → CPoly
  | [] => if c = 0 then [] else [(m, c)]
  | (n, d) :: p =>
    match cmpMono m n with
    | .lt => if c = 0 then (n, d) :: p else (m, c) :: (n, d) :: p
    | .eq => if c + d = 0 then p else (n, c + d) :: p
    | .gt => (n, d) :: insertTerm m c p

/-- Polynomial addition. -/
def addC (p q : CPoly) : CPoly := p.foldr (fun t acc => insertTerm t.1 t.2 acc) q

/-- Polynomial negation. -/
def negC (p : CPoly) : CPoly := p.map (fun t => (t.1, -t.2))

/-- Polynomial multiplication, inserting each product term in order. -/
def mulC (p q : CPoly) : CPoly :=
  p.foldr
    (fun t acc => q.foldr (fun u a => insertTerm (monoMul t.1 u.1) (t.2 * u.2) a) acc)
    []

/-- Embed an integer constant. -/
def ofIntC (c : Int) : CPoly := if c = 0 then [] else [([], c)]

/-- A variable symbol. -/
def symC (x : String) : CPoly := [([(x, 1)], 1)]

/-- Division; the source only reaches it with a nonzero constant
divisor (`Polynomial.div` guards with `is_constant` and
`__truediv__` with `is_zero`), so other divisors return the dividend;
no concrete run below reaches this operation at all. -/
def divConstC (p q : CPoly) : CPoly :=
  match q with
  | [([], c)] => p.map (fun t => (t.1, t.2 / c))
  | _ => p

/-- The variable name of a plain symbol term, if it is one. -/
def symName : CPoly → Option String
  | [([(x, 1)], c)] => if c = 1 then some x else none
  | _ => none

/-- Substitute one zero term: a symbol kills every monomial containing
it; any other term is replaced only when it is the whole polynomial
(sympy's `subs` replaces subtree occurrences, and a canonical sum
contains a non-symbol term as a subtree only when it is that term). -/
def subsOneC (p : CPoly) (z : CPoly) : CPoly :=
  match symName z with
  | some x => p.filter (fun t => !t.1.any (fun ve => ve.1 = x))
  | none => if p = z then [] else p

/-- Substitute every zero-set term by 0. -/
def subsZerosC (p : CPoly) (zs : List CPoly) : CPoly := zs.foldl subsOneC p

/-- The variable names occurring in a polynomial. -/
def varsOfC (p : CPoly) : List String :=
  (p.foldr (fun t acc => t.1.map Prod.fst ++ acc) []).dedup

/-- Free symbols, as symbol terms. -/
def freeSymbolsC (p : CPoly) : List CPoly := (varsOfC p).map symC

/-- Common part of two monomials (minimum exponents of shared
variables). -/
def monoGcd2 (m n : Mono) : Mono :=
  m.filterMap (fun ve =>
    match n.find? (fun u => u.1 = ve.1) with
    | some u => some (ve.1, min ve.2 u.2)
    | none => none)

/-- Divide a monomial by a part of it. -/
def monoDivM (m g : Mono) : Mono :=
  m.filterMap (fun ve =>
    match g.find? (fun u => u.1 = ve.1) with
    | some u => if ve.2 - u.2 = 0 then none else some (ve.1, ve.2 - u.2)
    | none => some ve)

/-- The factor sequence: `[0]` for the zero polynomial; a constant is
its own only factor; a monomial contributes its variables as symbols
(exponents and the numeric coefficient contribute nothing); a sum has
its common monomial content extracted, the cofactor staying as one
factor, and is otherwise its own only factor. -/
def factorListC (p : CPoly) : List CPoly :=
  match p with
  | [] => [[]]
  | [(m, _)] => if m = [] then [p] else m.map (fun ve => symC ve.1)
  | (m0, _) :: rest =>
    let g := rest.foldl (fun acc t => monoGcd2 acc t.1) m0
    if g = [] then [p]
    else
      g.map (fun ve => symC ve.1)
        ++ [p.foldr (fun t acc => insertTerm (monoDivM t.1 g) t.2 acc) []]

/-- Numeric value of a digit run. -/
def digitsVal (ds : List Char) : Nat :=
  ds.foldl (fun n c => 10 * n + (c.toNat - 48)) 0

/-- Source `sympify` on the token strings the tokenizer produces: a leading
digit makes a number, anything else a symbol.  A decimal literal keeps
only its integer part (no concrete run below uses decimals). -/
def sympifyC (s : String) : CPoly :=
  match s.data with
  | [] => []
  | c :: _ =>
    if c.isDigit then
      let p := s.data.span Char.isDigit
      ofIntC (digitsVal p.1)
    else symC s

/-- The concrete substrate instance. -/
instance instCPolySubstrate : Substrate CPoly where
  deq := inferInstance
  sneg := negC
  sadd := addC
  smul := mulC
  sdiv := divConstC
  factorList := factorListC
  subsZeros := subsZerosC
  freeSymbols := freeSymbolsC
  isZero p := p = []
  isNumber p :=
    match p with
    | [] => true
    | [([], _)] => true
    | _ => false
  sympify := sympifyC
  zeroT := []
  oneT := [([], 1)]

/-!
Helper lemmas shared by the claim theorems.
-/

omit S in
theorem Alg.sz_pos (a : Alg σ) : 1 ≤ a.sz := by
  cases a <;> simp only [Alg.sz] <;> omega

/-- Source `Polynomial.__add__` at the entry point agrees with `addPA`. -/
theorem Alg.add_polyL (t : σ) (b : Alg σ) : Alg.add (.poly t) b = addPA t b := by
  show Alg.addF ((Alg.poly t).sz + b.sz) (.poly t) b = addPA t b
  have h : (Alg.poly t).sz + b.sz = b.sz + 1 := by simp only [Alg.sz]; omega
  rw [h]
  rfl

/-- Source `Polynomial.__mul__` at the entry point agrees with `mulPA`. -/
theorem Alg.mul_polyL (t : σ) (b : Alg σ) : Alg.mul (.poly t) b = mulPA t b := by
  show Alg.mulF ((Alg.poly t).sz + b.sz) (.poly t) b = mulPA t b
  have h : (Alg.poly t).sz + b.sz = b.sz + 1 := by simp only [Alg.sz]; omega
  rw [h]
  rfl

/-- Source `Polynomial.__truediv__` at the entry point agrees with `divPA`. -/
theorem Alg.div_polyL (t : σ) (b : Alg σ) : Alg.div (.poly t) b = divPA t b := by
  show Alg.divF ((Alg.poly t).sz + b.sz) (.poly t) b = divPA t b
  have h : (Alg.poly t).sz + b.sz = b.sz + 1 := by simp only [Alg.sz]; omega
  rw [h]
  rfl

/-- Source `Alg.addF` with a ratio left operand is fuel-irrelevant above the
size bound: the recursion keeps the left operand fixed, so structural
induction on the right operand suffices. -/
theorem Alg.addF_smf0 (l r : σ) :
    ∀ (b : Alg σ) (f : Nat), (Alg.smf0 l r).sz + b.sz ≤ f →
      Alg.addF f (.smf0 l r) b = Alg.add (.smf0 l r) b := by
  intro b
  induction b with
  | poly t =>
    intro f hf
    obtain ⟨f', rfl⟩ : ∃ f', f = f' + 1 :=
      ⟨f - 1, by simp [Alg.sz] at hf; omega⟩
    rfl
  | smf0 l2 r2 =>
    intro f hf
    obtain ⟨f', rfl⟩ : ∃ f', f = f' + 1 :=
      ⟨f - 1, by simp [Alg.sz] at hf; omega⟩
    rfl
  | smfn c P Q ihP ihQ =>
    intro f hf
    simp only [Alg.sz] at hf
    obtain ⟨f', rfl⟩ : ∃ f', f = f' + 1 := ⟨f - 1, by omega⟩
    have hP := Alg.sz_pos P
    have hQ := Alg.sz_pos Q
    have e1 : Alg.addF f' (.smf0 l r) P = Alg.add (.smf0 l r) P :=
      ihP f' (by simp only [Alg.sz]; omega)
    have e2 : Alg.addF f' (.smf0 l r) Q = Alg.add (.smf0 l r) Q :=
      ihQ f' (by simp only [Alg.sz]; omega)
    have hs : (Alg.smf0 l r).sz + (Alg.smfn c P Q).sz = (1 + P.sz + Q.sz) + 1 := by
      simp only [Alg.sz]; omega
    have e1' : Alg.addF (1 + P.sz + Q.sz) (.smf0 l r) P = Alg.add (.smf0 l r) P :=
      ihP _ (by simp only [Alg.sz]; omega)
    have e2' : Alg.addF (1 + P.sz + Q.sz) (.smf0 l r) Q = Alg.add (.smf0 l r) Q :=
      ihQ _ (by simp only [Alg.sz]; omega)
    conv_rhs => rw [Alg.add, hs]
    simp only [Alg.addF, Alg.isZero]
    rw [e1, e2, e1', e2']

/-- The prover loop returns the last evaluation when every considered
evaluation is a zero polynomial. -/
theorem proveGo_all_zero (diff : Alg σ) (vars zeros nonzeros : List σ) :
    ∀ (rest i : Nat),
      (∀ k, k ≤ rest → isZeroPoly (evalAtHyp diff vars zeros nonzeros (i + k)) = true) →
      proveGo diff vars zeros nonzeros i rest
        = evalAtHyp diff vars zeros nonzeros (i + rest) := by
  intro rest
  induction rest with
  | zero => intro i _; simp [proveGo]
  | succ r ih =>
    intro i h
    have h0 : isZeroPoly (evalAtHyp diff vars zeros nonzeros i) = true := by
      simpa using h 0 (by omega)
    have step : proveGo diff vars zeros nonzeros i (r + 1)
        = proveGo diff vars zeros nonzeros (i + 1) r := by
      simp [proveGo, h0]
    rw [step, ih (i + 1) (fun k hk => by
      have := h (k + 1) (by omega)
      rwa [show i + (k + 1) = i + 1 + k by omega] at this)]
    congr 1
    omega

/-- The prover loop stops on the first evaluation that is not a zero
polynomial and returns it. -/
theorem proveGo_first_bad (diff : Alg σ) (vars zeros nonzeros : List σ) :
    ∀ (rest i k : Nat), k ≤ rest →
      isZeroPoly (evalAtHyp diff vars zeros nonzeros (i + k)) = false →
      (∀ j, j < k → isZeroPoly (evalAtHyp diff vars zeros nonzeros (i + j)) = true) →
      proveGo diff vars zeros nonzeros i rest
        = evalAtHyp diff vars zeros nonzeros (i + k) := by
  intro rest
  induction rest with
  | zero =>
    intro i k hk hbad _
    have : k = 0 := by omega
    subst this
    simp [proveGo]
  | succ r ih =>
    intro i k hk hbad hgood
    cases k with
    | zero =>
      simp only [Nat.add_zero] at hbad
      simp [proveGo, hbad]
    | succ k' =>
      have h0 : isZeroPoly (evalAtHyp diff vars zeros nonzeros i) = true := by
        simpa using hgood 0 (by omega)
      have step : proveGo diff vars zeros nonzeros i (r + 1)
          = proveGo diff vars zeros nonzeros (i + 1) r := by
        simp [proveGo, h0]
      rw [step, ih (i + 1) k' (by omega)
        (by rwa [show i + 1 + k' = i + (k' + 1) by omega])
        (fun j hj => by
          have := hgood (j + 1) (by omega)
          rwa [show i + (j + 1) = i + 1 + j by omega] at this)]
      congr 1
      omega

/-- The prover loop's result is a zero polynomial exactly when every
considered evaluation is. -/
theorem proveGo_zero_iff (diff : Alg σ) (vars zeros nonzeros : List σ) :
    ∀ (rest i : Nat),
      isZeroPoly (proveGo diff vars zeros nonzeros i rest) = true ↔
        ∀ k, k ≤ rest → isZeroPoly (evalAtHyp diff vars zeros nonzeros (i + k)) = true := by
  intro rest
  induction rest with
  | zero =>
    intro i
    simp only [proveGo]
    constructor
    · intro h k hk
      have : k = 0 := by omega
      subst this
      simpa using h
    · intro h
      simpa using h 0 (by omega)
  | succ r ih =>
    intro i
    by_cases h0 : isZeroPoly (evalAtHyp diff vars zeros nonzeros i) = true
    · have step : proveGo diff vars zeros nonzeros i (r + 1)
          = proveGo diff vars zeros nonzeros (i + 1) r := by
        simp [proveGo, h0]
      rw [step, ih (i + 1)]
      constructor
      · intro h k hk
        cases k with
        | zero => simpa using h0
        | succ k' =>
          have := h k' (by omega)
          rwa [show i + 1 + k' = i + (k' + 1) by omega] at this
      · intro h k hk
        have := h (k + 1) (by omega)
        rwa [show i + (k + 1) = i + 1 + k by omega] at this
    · have hb : isZeroPoly (evalAtHyp diff vars zeros nonzeros i) = false := by
        simpa using h0
      have step : proveGo diff vars zeros nonzeros i (r + 1)
          = evalAtHyp diff vars zeros nonzeros i := by
        simp [proveGo, hb]
      rw [step]
      constructor
      · intro h
        exact absurd h h0
      · intro h
        exact absurd (by simpa using h 0 (by omega)) h0

/-- Popping the source's `for f in factors: if f not in nonzeros` loop
into a filtered product. -/
theorem foldl_mul_filter (n : List σ) :
    ∀ (fs : List σ) (f : σ),
      fs.foldl (fun acc g => if g ∈ n then acc else S.smul acc g) f
        = (fs.filter (fun g => g ∉ n)).foldl S.smul f := by
  intro fs
  induction fs with
  | nil => intro f; rfl
  | cons g gs ih =>
    intro f
    by_cases hg : g ∈ n <;> simp [List.foldl_cons, List.filter_cons, hg, ih]

/-- No expression-level addition produces the algebra error. -/
theorem exprAdd_no_algebra (x y : Expr σ) : exprAdd x y ≠ .error .algebraError := by
  cases x <;> cases y <;> simp only [exprAdd] <;> (try split) <;> simp

/-- No expression-level multiplication produces the algebra error. -/
theorem exprMul_no_algebra (x y : Expr σ) : exprMul x y ≠ .error .algebraError := by
  cases x <;> cases y <;> simp only [exprMul] <;> (try split) <;> simp

/-- No expression-level division produces the algebra error. -/
theorem exprDiv_no_algebra (x y : Expr σ) : exprDiv x y ≠ .error .algebraError := by
  cases x <;> cases y <;> simp only [exprDiv] <;> (try split) <;> simp

/-- No expression-level negation produces the algebra error. -/
theorem exprNeg_no_algebra (x : Expr σ) : exprNeg x ≠ .error .algebraError := by
  cases x <;> simp [exprNeg]

/-- No operator application produces the algebra error. -/
theorem applyOp_no_algebra (o : Op) (x y : Expr σ) :
    applyOp o x y ≠ .error .algebraError := by
  cases o with
  | opEq => simp [applyOp]
  | opAdd => exact exprAdd_no_algebra x y
  | opSub =>
    simp only [applyOp, bind, Except.bind]
    cases hn : exprNeg y with
    | error e =>
      simp only [hn]
      intro h
      injection h with he
      exact exprNeg_no_algebra y (hn.trans (by rw [he]))
    | ok ny =>
      simp only [hn]
      exact exprAdd_no_algebra x ny
  | opMul => exact exprMul_no_algebra x y
  | opDiv => exact exprDiv_no_algebra x y

/-- Source `_pop_operator` never raises the algebra error. -/
theorem popOperator_no_algebra (es : List (Expr σ)) (it : StackItem) :
    popOperator es it ≠ .error .algebraError := by
  cases it with
  | lparen => simp [popOperator]
  | op o =>
    match es with
    | [] => simp [popOperator]
    | [y] => simp [popOperator]
    | y :: x :: rest =>
      simp only [popOperator, bind, Except.bind]
      cases ha : applyOp o x y with
      | error e =>
        simp only [ha]
        intro h
        injection h with he
        exact applyOp_no_algebra o x y (ha.trans (by rw [he]))
      | ok e => simp [ha]

/-- Source `_pop_until_lower_precedence` never raises the algebra error. -/
theorem popUntilLower_no_algebra (newOp : Op) :
    ∀ (os : List StackItem) (es : List (Expr σ)),
      popUntilLower newOp es os ≠ .error .algebraError := by
  intro os
  induction os with
  | nil => intro es; simp [popUntilLower]
  | cons it os ih =>
    intro es
    cases it with
    | lparen => simp [popUntilLower]
    | op o =>
      simp only [popUntilLower]
      by_cases hp : o.popsBefore newOp = true
      · simp only [hp, if_true, bind, Except.bind]
        cases hpo : popOperator es (.op o) with
        | error e =>
          simp only [hpo]
          intro h
          injection h with he
          exact popOperator_no_algebra es (.op o) (hpo.trans (by rw [he]))
        | ok es' =>
          simp only [hpo]
          exact ih es'
      · simp [hp]

/-- Source `_pop_until_left_paren` never raises the algebra error. -/
theorem popUntilLParen_no_algebra :
    ∀ (os : List StackItem) (es : List (Expr σ)),
      popUntilLParen es os ≠ .error .algebraError := by
  intro os
  induction os with
  | nil => intro es; simp [popUntilLParen]
  | cons it os ih =>
    intro es
    cases it with
    | lparen => simp [popUntilLParen]
    | op o =>
      simp only [popUntilLParen, bind, Except.bind]
      cases hpo : popOperator es (.op o) with
      | error e =>
        simp only [hpo]
        intro h
        injection h with he
        exact popOperator_no_algebra es (.op o) (hpo.trans (by rw [he]))
      | ok es' =>
        simp only [hpo]
        exact ih es'

/-- The final drain loop never raises the algebra error. -/
theorem popAll_no_algebra :
    ∀ (os : List StackItem) (es : List (Expr σ)),
      popAll es os ≠ .error .algebraError := by
  intro os
  induction os with
  | nil => intro es; simp [popAll]
  | cons it os ih =>
    intro es
    simp only [popAll, bind, Except.bind]
    cases hpo : popOperator es it with
    | error e =>
      simp only [hpo]
      intro h
      injection h with he
      exact popOperator_no_algebra es it (hpo.trans (by rw [he]))
    | ok es' =>
      simp only [hpo]
      exact ih es'

/-- The final drain loop empties the operator stack on success. -/
theorem popAll_os_nil :
    ∀ (os : List StackItem) (es es' : List (Expr σ)) (os' : List StackItem),
      popAll es os = .ok (es', os') → os' = [] := by
  intro os
  induction os with
  | nil =>
    intro es es' os' h
    simp only [popAll] at h
    injection h with h'
    have := congrArg Prod.snd h'
    simpa using this.symm
  | cons it os ih =>
    intro es es' os' h
    simp only [popAll, bind, Except.bind] at h
    cases hpo : popOperator es it with
    | error e => rw [hpo] at h; exact absurd h (by simp)
    | ok es2 => rw [hpo] at h; exact ih es2 es' os' h

/-- Source `_read_token` raises only syntax errors (`ParseError`/`ParenError`). -/
theorem readToken_no_algebra (cs : List Char) :
    readToken (σ := σ) cs ≠ .error .algebraError := by
  cases cs with
  | nil => simp [readToken]
  | cons c rest =>
    simp only [readToken]
    repeat' split
    all_goals simp

/-- The token loop of `parse` never raises the algebra error. -/
theorem parseLoop_no_algebra :
    ∀ (fuel : Nat) (cs : List Char) (es : List (Expr σ)) (os : List StackItem),
      parseLoop fuel cs es os ≠ .error .algebraError := by
  intro fuel
  induction fuel with
  | zero => intro cs es os; exact popAll_no_algebra os es
  | succ f ih =>
    intro cs es os
    simp only [parseLoop]
    split
    · exact popAll_no_algebra _ _
    · split
      · rename_i heq
        intro h
        injection h with he
        exact readToken_no_algebra _ (heq.trans (by rw [he]))
      · split
        · exact ih _ _ _
        · split
          · rename_i heq
            intro h
            injection h with he
            exact popUntilLower_no_algebra _ _ _ (heq.trans (by rw [he]))
          · exact ih _ _ _
        · exact ih _ _ _
        · split
          · rename_i heq
            intro h
            injection h with he
            exact popUntilLParen_no_algebra _ _ (heq.trans (by rw [he]))
          · exact ih _ _ _

/-- On success the token loop's operator stack comes back empty: the
only successful exit is through the final drain loop. -/
theorem parseLoop_os_nil :
    ∀ (fuel : Nat) (cs : List Char) (es es' : List (Expr σ))
      (os os' : List StackItem),
      parseLoop fuel cs es os = .ok (es', os') → os' = [] := by
  intro fuel
  induction fuel with
  | zero => intro cs es es' os os' h; exact popAll_os_nil os es es' os' h
  | succ f ih =>
    intro cs es es' os os' h
    simp only [parseLoop] at h
    split at h
    · exact popAll_os_nil _ _ _ _ h
    · split at h
      · simp at h
      · split at h
        · exact ih _ _ _ _ _ h
        · split at h
          · simp at h
          · exact ih _ _ _ _ _ h
        · exact ih _ _ _ _ _ h
        · split at h
          · simp at h
          · exact ih _ _ _ _ _ h

/-!
Claim theorems.
-/

/-- C3 (confirmed): evaluating a `Ratio` under a hypothesis evaluates
numerator and denominator under the same hypothesis and returns the
product (not the quotient) of the two reduced forms; concretely, for
`x/x` with `x` assumed nonzero the result is `x*x`, not `x/x = 1`. -/
theorem c3_smf0_eval_is_product (lhs rhs : σ) (zeros nonzeros : List σ) :
    Alg.eval (.smf0 lhs rhs) zeros nonzeros
      = Alg.mul (Alg.eval (.poly lhs) zeros nonzeros) (Alg.eval (.poly rhs) zeros nonzeros)
    ∧ Alg.eval (Alg.smf0 (symC "x") (symC "x")) [] [symC "x"]
        = .poly (mulC (symC "x") (symC "x"))
    ∧ Alg.eval (Alg.smf0 (symC "x") (symC "x")) [] [symC "x"]
        ≠ Alg.div (.poly (symC "x")) (.poly (symC "x")) :=
  ⟨rfl, by decide, by decide⟩

/-- C6 (confirmed): `"x / x = 1"` parses to the equation `x/x = 1`, is
disproved with the witnessing hypothesis `x` assumed zero (bit pattern
`i = 0` over the single free variable), and the nonzero residual is the
constant `-1`. -/
theorem c6_x_div_x_disproved :
    parseStr (σ := CPoly) "x / x = 1"
        = .ok (.equation (.alg (.smf0 (symC "x") (symC "x"))) (.alg (.poly [([], 1)])))
    ∧ freeVarsAlg (Alg.sub (Alg.smf0 (symC "x") (symC "x")) (.poly [([], 1)])) = [symC "x"]
    ∧ hypZeros [symC "x"] 0 = [symC "x"]
    ∧ hypNonzeros [symC "x"] 0 = []
    ∧ evalAtHyp (Alg.sub (Alg.smf0 (symC "x") (symC "x")) (.poly [([], 1)]))
        [symC "x"] [] [] 0 = .poly [([], -1)]
    ∧ isZeroPoly (Alg.poly (σ := CPoly) [([], -1)]) = false
    ∧ prove (σ := CPoly) "x / x = 1" = .provedFalse (.poly [([], -1)]) :=
  ⟨by decide, by decide, by decide, by decide, by decide, by decide, by decide⟩

/-- C7 (confirmed): dividing any `Algebraic` operand by a zero operand
yields the zero polynomial (meadow totality), and `"1 / 0 = 0"` is
proven true. -/
theorem c7_div_zero_total (a b : Alg σ) (h : b.isZero = true) :
    a.div b = .poly S.zeroT ∧ prove (σ := CPoly) "1 / 0 = 0" = .provedTrue := by
  constructor
  · cases b with
    | poly u =>
      have hu : S.isZero u = true := by simpa [Alg.isZero] using h
      cases a with
      | poly t => rw [Alg.div_polyL]; simp [divPA, Alg.isZero, hu]
      | smf0 l r =>
        show Alg.divF ((Alg.smf0 l r).sz + (Alg.poly u).sz) _ _ = _
        simp [Alg.sz, Alg.divF, Alg.isZero, hu]
      | smfn c P Q =>
        show Alg.divF ((Alg.smfn c P Q).sz + (Alg.poly u).sz) _ _ = _
        simp [Alg.sz, Alg.divF, Alg.isZero, hu]
    | smf0 l r => simp [Alg.isZero] at h
    | smfn c P Q => simp [Alg.isZero] at h
  · decide

/-- Witness for `c7_div_zero_total` at `x / 0`. -/
theorem c7_div_zero_total_witness :
    (Alg.poly (σ := CPoly) []).isZero = true
    ∧ (Alg.div (Alg.poly (σ := CPoly) (symC "x")) (.poly []) = .poly []
        ∧ prove (σ := CPoly) "1 / 0 = 0" = .provedTrue) :=
  ⟨by decide, c7_div_zero_total (Alg.poly (symC "x")) (.poly []) (by decide)⟩

/-- C10 (confirmed): `"+3"` (missing left operand) raises the syntax
error, and `"(a = b"` raises the parenthesis-balance error. -/
theorem c10_parse_errors :
    parseStr (σ := CPoly) "+3" = .error .parseError
    ∧ parseStr (σ := CPoly) "(a = b" = .error .parenError :=
  ⟨by decide, by decide⟩

/-- The evaluation rule exactly as C2 states it: the product of
precisely those distinct factors not already in the nonzero-set (an
empty product being 1), with zero-set terms substituted by 0. -/
def evalPolyClaimT (t : σ) (zeros nonzeros : List σ) : σ :=
  if S.isNumber t then t
  else
    S.subsZeros
      (match ((S.factorList t).dedup.filter (fun g => g ∉ nonzeros)) with
        | [] => S.oneT
        | f :: fs => fs.foldl S.smul f)
      zeros

/-- C2 counterexample: on `x*y` with both `x` and `y` known nonzero,
the code keeps the unconditionally popped factor `x` in the product
while the claim drops every known-nonzero factor. -/
theorem c2_eval_keeps_popped_factor :
    evalPolyT (mulC (symC "x") (symC "y")) [] [symC "x", symC "y"] = symC "x"
    ∧ evalPolyClaimT (mulC (symC "x") (symC "y")) [] [symC "x", symC "y"] = [([], 1)]
    ∧ evalPolyT (mulC (symC "x") (symC "y")) [] [symC "x", symC "y"]
        ≠ evalPolyClaimT (mulC (symC "x") (symC "y")) [] [symC "x", symC "y"] :=
  ⟨by decide, by decide, by decide⟩

/-- C2 (corrected): evaluating a non-constant `Polynomial` pops one
distinct factor into the product unconditionally and multiplies in each
remaining distinct factor not already in the nonzero-set, then
substitutes the zero-set terms with 0. -/
theorem c2_eval_amended (t : σ) (zeros nonzeros : List σ) (f : σ) (fs : List σ)
    (hc : S.isNumber t = false) (hd : (S.factorList t).dedup = f :: fs) :
    evalPolyT t zeros nonzeros
      = S.subsZeros ((fs.filter (fun g => g ∉ nonzeros)).foldl S.smul f) zeros := by
  simp only [evalPolyT, hc, Bool.false_eq_true, if_false, hd]
  rw [foldl_mul_filter]

/-- Witness for `c2_eval_amended` on `x*y` with `y` known nonzero. -/
theorem c2_eval_amended_witness :
    Substrate.isNumber (mulC (symC "x") (symC "y")) = false
    ∧ (Substrate.factorList (mulC (symC "x") (symC "y"))).dedup = [symC "x", symC "y"]
    ∧ evalPolyT (mulC (symC "x") (symC "y")) [] [symC "y"]
        = Substrate.subsZeros
            (([symC "y"].filter (fun g => g ∉ ([symC "y"] : List CPoly))).foldl
              Substrate.smul (symC "x"))
            [] :=
  ⟨by decide, by decide,
    c2_eval_amended (mulC (symC "x") (symC "y")) [] [symC "y"] (symC "x") [symC "y"]
      (by decide) (by decide)⟩

/-- C4 counterexample: `make(x, x, x)` has equal branches but returns a
branch node, because the vanishing rewrite turns `Q = x` into 0 before
the `P == Q` test. -/
theorem c4_make_equal_branches_counterexample :
    mkSMFN (symC "x") (Alg.poly (symC "x")) (.poly (symC "x"))
        = .smfn (symC "x") (.poly (symC "x")) (.poly [])
    ∧ mkSMFN (symC "x") (Alg.poly (symC "x")) (.poly (symC "x")) ≠ .poly (symC "x") :=
  ⟨by decide, by decide⟩

/-- C4 (corrected): after normalising the condition and rewriting the
branches, `make` collapses to the rewritten `P` when the rewritten
branches coincide, to the rewritten `Q` on a zero condition, to the
rewritten `P` on a constant condition, and otherwise builds a branch
node whose condition is the product of the reported factor sequence, is
neither zero nor constant, and whose branches are distinct. -/
theorem c4_make_amended (cond : σ) (P Q : Alg σ) :
    (rewriteP (normCond cond) P = rewriteQ (normCond cond) Q →
        mkSMFN cond P Q = rewriteP (normCond cond) P)
    ∧ (rewriteP (normCond cond) P ≠ rewriteQ (normCond cond) Q →
        S.isZero (normCond cond) = true →
        mkSMFN cond P Q = rewriteQ (normCond cond) Q)
    ∧ (rewriteP (normCond cond) P ≠ rewriteQ (normCond cond) Q →
        S.isZero (normCond cond) = false →
        S.isNumber (normCond cond) = true →
        mkSMFN cond P Q = rewriteP (normCond cond) P)
    ∧ (rewriteP (normCond cond) P ≠ rewriteQ (normCond cond) Q →
        S.isZero (normCond cond) = false →
        S.isNumber (normCond cond) = false →
        mkSMFN cond P Q
          = .smfn (normCond cond) (rewriteP (normCond cond) P) (rewriteQ (normCond cond) Q)
        ∧ rewriteP (normCond cond) P ≠ rewriteQ (normCond cond) Q
        ∧ (∀ g gs, S.factorList cond = g :: gs → normCond cond = gs.foldl S.smul g)) := by
  refine ⟨?_, ?_, ?_, ?_⟩
  · intro hpq
    simp [mkSMFN, hpq]
  · intro hpq hz
    simp [mkSMFN, hpq, hz]
  · intro hpq hz hn
    simp [mkSMFN, hpq, hz, hn]
  · intro hpq hz hn
    refine ⟨by simp [mkSMFN, hpq, hz, hn], hpq, ?_⟩
    intro g gs hg
    simp [normCond, hg]

/-- Witness for `c4_make_amended`, branch-node case at `(x, 2, 3)`. -/
theorem c4_make_amended_witness :
    mkSMFN (symC "x") (Alg.poly (σ := CPoly) [([], 2)]) (.poly [([], 3)])
      = .smfn (normCond (symC "x"))
          (rewriteP (normCond (symC "x")) (.poly [([], 2)]))
          (rewriteQ (normCond (symC "x")) (.poly [([], 3)])) :=
  ((c4_make_amended (symC "x") (.poly [([], 2)]) (.poly [([], 3)])).2.2.2
    (by decide) (by decide) (by decide)).1

/-- C5 counterexample: multiplying the ratio `1/y` with the branch
`y ≠ 0 ? 2 : 3` (matching condition) returns the branch's own true
branch `2`, not the branch-wise product `2/y`; the claim's branch-wise
result differs. -/
theorem c5_matching_ratio_branch_counterexample :
    Alg.mul (Alg.smf0 [([], 1)] (symC "y"))
        (.smfn (symC "y") (.poly [([], 2)]) (.poly [([], 3)]))
      = .smfn (symC "y") (.poly [([], 2)]) (.poly [])
    ∧ mkSMFN (symC "y")
          (Alg.mul (Alg.smf0 [([], 1)] (symC "y")) (.poly [([], 2)]))
          (Alg.mul (Alg.smf0 [([], 1)] (symC "y")) (.poly [([], 3)]))
        = .smfn (symC "y") (.smf0 [([], 2)] (symC "y")) (.poly [])
    ∧ Alg.mul (Alg.smf0 [([], 1)] (symC "y"))
          (.smfn (symC "y") (.poly [([], 2)]) (.poly [([], 3)]))
        ≠ mkSMFN (symC "y")
            (Alg.mul (Alg.smf0 [([], 1)] (symC "y")) (.poly [([], 2)]))
            (Alg.mul (Alg.smf0 [([], 1)] (symC "y")) (.poly [([], 3)])) :=
  ⟨by decide, by decide, by decide⟩

/-- C5 (corrected): for a ratio and a branch with matching condition,
addition is branch-wise only on the true branch (the false branch stays
`Q`); multiplication returns the branch over the shared condition with
true branch `P` and false branch 0; division returns the branch with
true branch `1/(denominator * P)` and false branch 0. -/
theorem c5_matching_ratio_branch_amended (l c : σ) (P Q : Alg σ) :
    Alg.add (.smf0 l c) (.smfn c P Q) = mkSMFN c (Alg.add (.smf0 l c) P) Q
    ∧ Alg.mul (.smf0 l c) (.smfn c P Q) = mkSMFN c P (.poly S.zeroT)
    ∧ Alg.div (.smf0 l c) (.smfn c P Q)
        = mkSMFN c (Alg.div (.poly S.oneT) (Alg.mul (.poly c) P)) (.poly S.zeroT) := by
  have hs : (Alg.smf0 l c).sz + (Alg.smfn c P Q).sz = (1 + P.sz + Q.sz) + 1 := by
    simp only [Alg.sz]; omega
  refine ⟨?_, ?_, ?_⟩
  · rw [Alg.add, hs]
    simp only [Alg.addF, Alg.isZero, Bool.false_eq_true, if_false, eq_self_iff_true, if_true]
    rw [Alg.addF_smf0 l c P (1 + P.sz + Q.sz) (by simp only [Alg.sz]; omega)]
  · rw [Alg.mul, hs]
    simp only [Alg.mulF, Alg.isZero, Alg.isOne, Bool.false_eq_true, if_false,
      eq_self_iff_true, if_true]
  · rw [Alg.div, hs]
    simp only [Alg.divF, Alg.isZero, Alg.isOne, Bool.false_eq_true, if_false,
      eq_self_iff_true, if_true]
    rw [Alg.div_polyL, Alg.mul_polyL]

/-- C9 counterexample: proving `"1 + (a = b)"` dies with an uncaught
`AttributeError`, not a caught algebra error. -/
theorem c9_uncaught_attribute_error :
    prove (σ := CPoly) "1 + (a = b)" = .uncaught .attributeError
    ∧ prove (σ := CPoly) "1 + (a = b)" ≠ .caught .algebraError :=
  ⟨by decide, by decide⟩

/-- C9 (corrected): arithmetic over the closed algebraic variants is
total and never produces the algebra error; combining an `Equation`
operand instead raises `AttributeError` (nonzero algebraic left
operand) or `TypeError` (`Equation` left operand, or negation), neither
of which is caught by the caller. -/
theorem c9_equation_operand_errors (a : Alg σ) (l r : Expr σ) :
    (a.isZero = false →
        exprAdd (.alg a) (.equation l r) = .error .attributeError
        ∧ exprMul (.alg a) (.equation l r) = .error .attributeError
        ∧ exprDiv (.alg a) (.equation l r) = .error .attributeError)
    ∧ (∀ y : Expr σ,
        exprAdd (.equation l r) y = .error .typeError
        ∧ exprMul (.equation l r) y = .error .typeError
        ∧ exprDiv (.equation l r) y = .error .typeError)
    ∧ exprNeg (.equation l r) = .error .typeError
    ∧ (∀ x y : Expr σ,
        exprAdd x y ≠ .error .algebraError
        ∧ exprMul x y ≠ .error .algebraError
        ∧ exprDiv x y ≠ .error .algebraError)
    ∧ PyErr.attributeError.isCaught = false
    ∧ PyErr.typeError.isCaught = false := by
  refine ⟨fun hz => ⟨?_, ?_, ?_⟩, fun y => ⟨rfl, rfl, rfl⟩, rfl,
    fun x y => ⟨exprAdd_no_algebra x y, exprMul_no_algebra x y, exprDiv_no_algebra x y⟩,
    rfl, rfl⟩
  all_goals simp [exprAdd, exprMul, exprDiv, hz]

/-- Witness for `c9_equation_operand_errors` at `1 + (a = b)`. -/
theorem c9_equation_operand_errors_witness :
    exprAdd (.alg (Alg.poly (σ := CPoly) [([], 1)]))
        (.equation (.alg (.poly (symC "a"))) (.alg (.poly (symC "b"))))
      = .error .attributeError :=
  ((c9_equation_operand_errors (Alg.poly (σ := CPoly) [([], 1)])
      (.alg (.poly (symC "a"))) (.alg (.poly (symC "b")))).1 (by decide)).1

/-- C8 counterexample: the final assertion of `parse` fails on the
inputs `"1 2"` (two juxtaposed operands) and `""` (empty input). -/
theorem c8_assert_fails :
    parseStr (σ := CPoly) "1 2" = .error .assertionError
    ∧ parseStr (σ := CPoly) "" = .error .assertionError :=
  ⟨by decide, by decide⟩

/-- C8 (corrected): parsing either raises an error that is never the
algebra error (syntax/paren errors, equation-operand arithmetic
failures, or the final assertion's failure when the end state is not a
single expression), or succeeds, in which case the end state was
exactly one expression and an empty operator stack; the operator-stack
half of the assertion is guaranteed by the stack discipline, the
single-expression half is not. -/
theorem c8_parse_end_state (s : String) :
    (∃ e, parseStr (σ := σ) s = .error e ∧ e ≠ .algebraError)
    ∨ (∃ ex, parseStr (σ := σ) s = .ok ex
        ∧ parseLoop (σ := σ) (s.length + 1) s.data [] [] = .ok ([ex], [])) := by
  cases hp : parseLoop (σ := σ) (s.length + 1) s.data [] [] with
  | error e =>
    left
    refine ⟨e, by simp [parseStr, hp], ?_⟩
    intro he
    subst he
    exact parseLoop_no_algebra _ _ _ _ hp
  | ok p =>
    obtain ⟨es, os⟩ := p
    have hos : os = [] := parseLoop_os_nil _ _ _ _ _ _ hp
    subst hos
    cases es with
    | nil => exact .inl ⟨.assertionError, by simp [parseStr, hp], by simp⟩
    | cons e es' =>
      cases es' with
      | nil => exact .inr ⟨e, by simp [parseStr, hp], rfl⟩
      | cons e2 es'' => exact .inl ⟨.assertionError, by simp [parseStr, hp], by simp⟩

/-- C1 (confirmed): the prover forms `diff = lhs - rhs`, enumerates the
`2^|V|` bit patterns over `diff`'s free variables from 0 upward with
bit 0 meaning assumed-zero and bit 1 assumed-nonzero, reports proven
true exactly when every evaluation is the zero polynomial, and stops at
the first hypothesis whose evaluation is not one, returning that
nonzero residual. -/
theorem c1_prover_case_split (lhs rhs : Alg σ) (zeros nonzeros : List σ) :
    (isZeroPoly (equationEval lhs rhs zeros nonzeros) = true
      ↔ ∀ i < 2 ^ (freeVarsAlg (lhs.sub rhs)).length,
          isZeroPoly (evalAtHyp (lhs.sub rhs) (freeVarsAlg (lhs.sub rhs)) zeros nonzeros i)
            = true)
    ∧ (∀ i < 2 ^ (freeVarsAlg (lhs.sub rhs)).length,
        isZeroPoly (evalAtHyp (lhs.sub rhs) (freeVarsAlg (lhs.sub rhs)) zeros nonzeros i)
            = false →
        (∀ j < i,
          isZeroPoly (evalAtHyp (lhs.sub rhs) (freeVarsAlg (lhs.sub rhs)) zeros nonzeros j)
            = true) →
        equationEval lhs rhs zeros nonzeros
          = evalAtHyp (lhs.sub rhs) (freeVarsAlg (lhs.sub rhs)) zeros nonzeros i) := by
  have hN : 0 < 2 ^ (freeVarsAlg (lhs.sub rhs)).length := Nat.two_pow_pos _
  have heq : equationEval lhs rhs zeros nonzeros
      = proveGo (lhs.sub rhs) (freeVarsAlg (lhs.sub rhs)) zeros nonzeros 0
          (2 ^ (freeVarsAlg (lhs.sub rhs)).length - 1) := rfl
  constructor
  · rw [heq, proveGo_zero_iff]
    constructor
    · intro h i hi
      simpa using h i (by omega)
    · intro h k hk
      simpa using h k (by omega)
  · intro i hi hbad hgood
    rw [heq]
    have := proveGo_first_bad (lhs.sub rhs) (freeVarsAlg (lhs.sub rhs)) zeros nonzeros
      (2 ^ (freeVarsAlg (lhs.sub rhs)).length - 1) 0 i (by omega)
      (by simpa using hbad) (fun j hj => by simpa using hgood j hj)
    simpa using this

/-- Witness for `c1_prover_case_split` on the equation `x = 1`, whose
first hypothesis (`x` assumed zero) already fails. -/
theorem c1_prover_case_split_witness :
    equationEval (Alg.poly (σ := CPoly) (symC "x")) (.poly [([], 1)]) [] []
      = evalAtHyp ((Alg.poly (σ := CPoly) (symC "x")).sub (.poly [([], 1)]))
          (freeVarsAlg ((Alg.poly (σ := CPoly) (symC "x")).sub (.poly [([], 1)]))) [] [] 0 :=
  (c1_prover_case_split (Alg.poly (σ := CPoly) (symC "x")) (.poly [([], 1)]) [] []).2 0
    (by decide) (by decide) (fun j hj => absurd hj (by omega))

end Foxi
